import Mathlib

/-!
Shallow embedding of `src/graph-data.rs/src/check_signatures.rs`, the
signature-checking pass of the cincinnati-graph-data repository.

External effects and collaborators are modelled as explicit parameters:
  * the network is a function `Net` from a URL string to either a transport
    error message (`Except.error`) or an HTTP status code (`Except.ok`);
  * the external `semver` crate's `Version::from_str` is a parameter
    `parse : String → Option Version` (`none` models a parse failure, which
    the source code turns into a panic via `.unwrap()`);
  * the external `cincinnati::Release` type is modelled by its two variants,
    with the fields this module reads (version string, payload string).
Panics and `anyhow` errors are modelled with `Except`; string-manipulation
primitives from Rust (`str::split`, `str::replace`, `Url::join` on a
directory-style base) are translated to executable Lean functions below.
-/

namespace CheckSignatures

/-- Model of the external cincinnati ConcreteRelease: the fields read by
check_signatures.rs are the version string and the payload reference. -/
structure ConcreteRelease where
  version : String
  payload : String
deriving DecidableEq, Repr

/-- Model of the external cincinnati::Release enum: a concrete release
carrying a payload, or an abstract release carrying only a version. -/
inductive Release where
  | Concrete (c : ConcreteRelease)
  | Abstract (version : String)
deriving DecidableEq, Repr

/-- Release::version() — returns the version string of either variant. -/
def Release.version : Release → String
  | .Concrete c => c.version
  | .Abstract v => v

/-- Whether a release is the Concrete variant. -/
def Release.isConcrete : Release → Bool
  | .Concrete _ => true
  | .Abstract _ => false

/-- Model of the external semver::Version: the components compared by
set membership.  Parsing is a parameter of the development. -/
structure Version where
  major : Nat
  minor : Nat
  patch : Nat
deriving DecidableEq, Repr

/-- The network, as seen through one HTTP GET: maps a URL to either a
transport-error message or a status code. -/
def Net : Type := String → Except String Nat

/-- Rust str::split on a single-character separator, over a char list:
splitting the empty list yields one empty segment, exactly as in Rust. -/
def splitCharList (sep : Char) : List Char → List (List Char)
  | [] => [[]]
  | c :: cs =>
    match splitCharList sep cs with
    | [] => [[]]
    | h :: t => if c = sep then [] :: h :: t else (c :: h) :: t

/-- Rust str::split on a single-character separator, over strings. -/
def splitOnChar (sep : Char) (s : String) : List String :=
  (splitCharList sep s.data).map String.mk

/-- Rust str::replace with a single-character pattern and replacement. -/
def replaceChar (oldC newC : Char) (s : String) : String :=
  String.mk (s.data.map (fun c => if c = oldC then newC else c))

/-- Url::join of a relative segment onto a directory-style base URL. -/
def urlJoin (base rel : String) : String := base ++ rel

/-- BASE_URL — base url for signature storage (lazy_static in the source). -/
def BASE_URL : String :=
  "https://mirror.openshift.com/pub/openshift-v4/signatures/openshift/release/"

/-- MAX_SIGNATURES = 10 — CVO has maxSignatureSearch = 10 in
pkg/verify/verify.go. -/
def MAX_SIGNATURES : Nat := 10

/-- Errors produced by find_signatures_for_version (anyhow errors in the
source, given structure here so theorems can speak about their parts). -/
inductive FindError where
  | notConcreteRelease
  | malformedPayload (payload : String)
  | signaturesExhausted (version : String) (payload : String) (errors : List String)
deriving DecidableEq, Repr

/-- payload_from_release — Ok(payload) for a concrete release, the
"not a concrete release" error for every other variant. -/
def payload_from_release : Release → Except FindError String
  | .Concrete c => .ok c.payload
  | _ => .error .notConcreteRelease

/-- Digest extraction inside find_signatures_for_version:
payload.split("@").last().ok_or_else(malformed-payload error). -/
def extract_digest (payload : String) : Except FindError String :=
  match (splitOnChar '@' payload).getLast? with
  | some d => .ok d
  | none => .error (.malformedPayload payload)

/-- The URL built by fetch_url: BASE_URL joined with the digest (":"
replaced by "=") plus "/", then joined with "signature-{i}". -/
def fetch_url_target (sha : String) (i : Nat) : String :=
  urlJoin (urlJoin BASE_URL (replaceChar ':' '=' sha ++ "/"))
    ("signature-" ++ toString i)

/-- fetch_url — one signature probe: GET the candidate URL, succeed on an
HTTP success status (2xx), fail with a transport error or a descriptive
"Error fetching url - status" message otherwise. -/
def fetch_url (net : Net) (sha : String) (i : Nat) : Except String Unit :=
  match net (fetch_url_target sha i) with
  | .error e => .error e
  | .ok status =>
    if 200 ≤ status && status < 300 then .ok ()
    else .error ("Error fetching " ++ fetch_url_target sha i ++ " - " ++ toString status)

/-- The candidate indices tried by the attempts Range { start: 1,
end: MAX_SIGNATURES }: the list [1, 2, ..., MAX_SIGNATURES - 1]. -/
def attemptIndices : List Nat := List.range' 1 (MAX_SIGNATURES - 1)

/-- The probe loop of find_signatures_for_version over the remaining
candidate indices.  Returns the outcome (errors accumulated in probe order
on exhaustion) together with the trace of indices actually probed. -/
def find_signatures_loop (net : Net) (digest : String) :
    List Nat → Except (List String) Unit × List Nat
  | [] => (.error [], [])
  | i :: rest =>
    match fetch_url net digest i with
    | .ok _ => (.ok (), [i])
    | .error e =>
      match find_signatures_loop net digest rest with
      | (.ok u, probed) => (.ok u, i :: probed)
      | (.error errs, probed) => (.error (e :: errs), i :: probed)

/-- find_signatures_for_version — per-release discovery: extract payload
and digest, then probe candidate indices in increasing order, stopping at
the first success; on exhaustion fail with an error naming the release
version, the payload, and the accumulated per-index errors.  The second
component is the trace of indices probed, in order. -/
def find_signatures_for_version (net : Net) (release : Release) :
    Except FindError Unit × List Nat :=
  match payload_from_release release with
  | .error e => (.error e, [])
  | .ok payload =>
    match extract_digest payload with
    | .error e => (.error e, [])
    | .ok digest =>
      match find_signatures_loop net digest attemptIndices with
      | (.ok _, probed) => (.ok (), probed)
      | (.error errs, probed) =>
        (.error (.signaturesExhausted release.version payload errs), probed)

/-- Arch-identifier stripping in is_release_in_versions:
release.version().split("+").next() (always present, as in the source). -/
def strip_arch (v : String) : String := (splitOnChar '+' v).headD v

/-- is_release_in_versions — strips the arch identifier, parses the rest as
a semantic version and tests membership in the tracked set.  The source
calls .unwrap() on the parse, panicking on failure; the panic is modelled
as Except.error. -/
def is_release_in_versions (parse : String → Option Version)
    (versions : List Version) (release : Release) : Except String Bool :=
  let stripped := strip_arch release.version
  match parse stripped with
  | some v => .ok (versions.contains v)
  | none => .error ("invalid semver: " ++ stripped)

/-- Errors produced by run: a version-parse panic during filtering aborts
the run; otherwise the error carries the failing discovery results. -/
inductive RunError where
  | versionParseFailure (msg : String)
  | signatureCheckErrors (failures : List FindError)
deriving DecidableEq, Repr

/-- The filtering step of run: releases.filter(is_release_in_versions ...)
collected eagerly, so a parse panic on any release aborts before any
probing; the kept releases stay in their original relative order. -/
def filter_tracked (parse : String → Option Version) (versions : List Version) :
    List Release → Except String (List Release)
  | [] => .ok []
  | r :: rest =>
    match is_release_in_versions parse versions r with
    | .error e => .error e
    | .ok b =>
      match filter_tracked parse versions rest with
      | .error e => .error e
      | .ok t => .ok (if b then r :: t else t)

/-- run — the batch: filter releases to the tracked ones, run discovery for
each (FuturesOrdered collects results in submission order), keep only the
failing results, succeed when none failed.  The second component is the
probe trace: for each filtered release in order, the indices probed. -/
def run (net : Net) (parse : String → Option Version)
    (releases : List Release) (found_versions : List Version) :
    Except RunError Unit × List (Release × List Nat) :=
  match filter_tracked parse found_versions releases with
  | .error e => (.error (.versionParseFailure e), [])
  | .ok tracked =>
    let outcomes := tracked.map (fun r => (r, find_signatures_for_version net r))
    let failures := outcomes.filterMap (fun p =>
      match p.2.1 with
      | .error e => some e
      | .ok _ => none)
    let trace := outcomes.map (fun p => (p.1, p.2.2))
    if failures.isEmpty then (.ok (), trace)
    else (.error (.signatureCheckErrors failures), trace)

/-- The last @-delimited segment of a payload (the whole string when no @
occurs, the empty string for the empty payload). -/
def lastSeg (payload : String) : String := (splitOnChar '@' payload).getLastD ""

/-- The discovery outcome of one release. -/
def discoveryResult (net : Net) (r : Release) : Except FindError Unit :=
  (find_signatures_for_version net r).1

/-- The indices probed for one release, in probe order. -/
def discoveryProbes (net : Net) (r : Release) : List Nat :=
  (find_signatures_for_version net r).2

/-- Whether one probe at (digest, index) succeeds. -/
def probeOk (net : Net) (digest : String) (i : Nat) : Bool :=
  match fetch_url net digest i with
  | .ok _ => true
  | .error _ => false

/-- The error message of one failed probe (empty for a successful one). -/
def probeErrMsg (net : Net) (digest : String) (i : Nat) : String :=
  match fetch_url net digest i with
  | .ok _ => ""
  | .error e => e

/-- The boolean the version filter computes when the parse succeeds. -/
def trackedB (parse : String → Option Version) (versions : List Version)
    (r : Release) : Bool :=
  match parse (strip_arch r.version) with
  | some v => versions.contains v
  | none => false

/-- The error of a discovery result, none on success. -/
def errOf : Except FindError Unit → Option FindError
  | .error e => some e
  | .ok _ => none

/-- Whether a discovery result is a success. -/
def resultIsOk : Except FindError Unit → Bool
  | .ok _ => true
  | .error _ => false

/-- The error carried by a failing discovery result (dummy on success). -/
def errUnwrap : Except FindError Unit → FindError
  | .error e => e
  | .ok _ => .notConcreteRelease

/-- Whether the run outcome is the version-parse abort. -/
def isVersionParseFailure : Except RunError Unit → Bool
  | .error (.versionParseFailure _) => true
  | _ => false

/-- The probe trace the run records for a given release: the trace of its
first entry in the run's trace list ([] when the release was filtered out
or never reached). -/
def probesOf (trace : List (Release × List Nat)) (r : Release) : List Nat :=
  match trace.find? (fun p => decide (p.1 = r)) with
  | some p => p.2
  | none => []

/-- Test fixture: a network where every URL returns HTTP 404. -/
def netAllFail : Net := fun _ => .ok 404

/-- Test fixture: a network where only the index-3 signature object of
digest sha256:dead exists (HTTP 200); every other URL returns 404. -/
def netOnlyThree : Net :=
  fun u => if u = fetch_url_target "sha256:dead" 3 then .ok 200 else .ok 404

/-- Test fixture: a concrete release 4.1.0 with digest sha256:dead. -/
def relA : ConcreteRelease := ⟨"4.1.0", "registry/repo@sha256:dead"⟩

/-- Test fixture: a parse recognising exactly the version 4.1.0. -/
def parse41 : String → Option Version :=
  fun s => if s = "4.1.0" then some ⟨4, 1, 0⟩ else none

/-- Test fixture: a total parse mapping 4.1.0 to itself and anything else
to 9.9.9. -/
def parseTot : String → Option Version :=
  fun s => if s = "4.1.0" then some ⟨4, 1, 0⟩ else some ⟨9, 9, 9⟩

/-- Test fixture: a release list with one release outside the tracked set
between two tracked ones. -/
def rlABC : List Release :=
  [.Concrete relA, .Abstract "9.9.9", .Abstract "4.1.0"]

/-- Test fixture: the tracked sublist of rlABC. -/
def trkAC : List Release := [.Concrete relA, .Abstract "4.1.0"]

/-- Test fixture: a tracked concrete release followed by a tracked
abstract release. -/
def rlAB : List Release := [.Concrete relA, .Abstract "4.1.0"]

end CheckSignatures

deriving instance DecidableEq for Except

namespace CheckSignatures

/-- Rust str::split always yields at least one segment. -/
theorem splitCharList_ne_nil (sep : Char) (cs : List Char) :
    splitCharList sep cs ≠ [] := by
  induction cs with
  | nil => simp [splitCharList]
  | cons c cs ih =>
    unfold splitCharList
    cases h : splitCharList sep cs with
    | nil => simp
    | cons h₁ t => by_cases hc : c = sep <;> simp [hc]

/-- splitOnChar always yields at least one segment. -/
theorem splitOnChar_ne_nil (sep : Char) (s : String) :
    splitOnChar sep s ≠ [] := by
  unfold splitOnChar
  intro h
  exact splitCharList_ne_nil sep s.data (List.map_eq_nil_iff.mp h)

/-- Digest extraction never takes the MalformedPayload branch: the split
always has a last segment, so extraction returns it. -/
theorem extract_digest_eq_ok (p : String) :
    extract_digest p = .ok (lastSeg p) := by
  unfold extract_digest lastSeg
  cases h : (splitOnChar '@' p).getLast? with
  | none => exact absurd (List.getLast?_eq_none_iff.mp h) (splitOnChar_ne_nil '@' p)
  | some d => simp [h]

/-- Splitting a list without the separator yields the single whole segment. -/
theorem splitCharList_of_not_mem (sep : Char) (cs : List Char) (h : sep ∉ cs) :
    splitCharList sep cs = [cs] := by
  induction cs with
  | nil => rfl
  | cons c cs ih =>
    have hc : ¬ c = sep := fun e => h (e ▸ List.mem_cons_self c cs)
    have hcs : sep ∉ cs := fun hm => h (List.mem_cons_of_mem _ hm)
    unfold splitCharList
    rw [ih hcs]
    simp [hc]

/-- The last @-segment of a payload without @ is the payload itself. -/
theorem lastSeg_of_not_mem (p : String) (h : '@' ∉ p.data) : lastSeg p = p := by
  unfold lastSeg splitOnChar
  rw [splitCharList_of_not_mem '@' p.data h]
  rfl

/-- On a list of all-failing indices the probe loop exhausts the whole
list, accumulating the per-index error messages in probe order. -/
theorem find_signatures_loop_all_fail (net : Net) (d : String) (l : List Nat)
    (hf : ∀ i ∈ l, probeOk net d i = false) :
    find_signatures_loop net d l = (.error (l.map (probeErrMsg net d)), l) := by
  induction l with
  | nil => rfl
  | cons i rest ih =>
    have hi := hf i (List.mem_cons_self i rest)
    have hrest : ∀ j ∈ rest, probeOk net d j = false :=
      fun j hj => hf j (List.mem_cons_of_mem _ hj)
    unfold find_signatures_loop
    cases hfu : fetch_url net d i with
    | ok u => simp [probeOk, hfu] at hi
    | error e => rw [ih hrest]; simp [probeErrMsg, hfu]

/-- The probe loop stops at the first success: all earlier indices failing
and index k succeeding, exactly the earlier indices plus k are probed and
the loop succeeds. -/
theorem find_signatures_loop_first_success (net : Net) (d : String)
    (l₁ l₂ : List Nat) (k : Nat)
    (hf : ∀ i ∈ l₁, probeOk net d i = false)
    (hk : probeOk net d k = true) :
    find_signatures_loop net d (l₁ ++ k :: l₂) = (.ok (), l₁ ++ [k]) := by
  induction l₁ with
  | nil =>
    simp only [List.nil_append]
    unfold find_signatures_loop
    cases hfu : fetch_url net d k with
    | ok u => simp
    | error e => simp [probeOk, hfu] at hk
  | cons i rest ih =>
    have hi := hf i (List.mem_cons_self i rest)
    have hrest : ∀ j ∈ rest, probeOk net d j = false :=
      fun j hj => hf j (List.mem_cons_of_mem _ hj)
    simp only [List.cons_append]
    unfold find_signatures_loop
    cases hfu : fetch_url net d i with
    | ok u => simp [probeOk, hfu] at hi
    | error e => rw [ih hrest]

/-- The loop's probe trace is always an initial segment of the index list. -/
theorem find_signatures_loop_probes_take (net : Net) (d : String) (l : List Nat) :
    ∃ m, m ≤ l.length ∧ (find_signatures_loop net d l).2 = l.take m := by
  induction l with
  | nil => exact ⟨0, Nat.le_refl 0, rfl⟩
  | cons i rest ih =>
    unfold find_signatures_loop
    cases hfu : fetch_url net d i with
    | ok u => exact ⟨1, by simp, by simp⟩
    | error e =>
      obtain ⟨m, hm, he⟩ := ih
      cases hres : find_signatures_loop net d rest with
      | mk res probed =>
        have he' : probed = rest.take m := by rw [hres] at he; exact he
        refine ⟨m + 1, by simpa using hm, ?_⟩
        cases res <;> simp [he']

/-- The loop probes the head index first, so its trace is nonempty. -/
theorem find_signatures_loop_cons_probes_ne_nil (net : Net) (d : String)
    (i : Nat) (rest : List Nat) :
    (find_signatures_loop net d (i :: rest)).2 ≠ [] := by
  unfold find_signatures_loop
  cases hfu : fetch_url net d i with
  | ok u => simp
  | error e =>
    cases hres : find_signatures_loop net d rest with
    | mk res probed => cases res <;> simp

/-- An initial segment of a contiguous range is the shorter range. -/
theorem take_range'_eq (s m n : Nat) (h : m ≤ n) :
    (List.range' s n).take m = List.range' s m := by
  have happ := List.range'_append_1 s m (n - m)
  rw [Nat.sub_add_cancel h] at happ
  rw [← happ]
  exact List.take_left' (List.length_range' s 1 m)

/-- Discovery on a concrete release reduces to the probe loop over the
candidate indices with the digest extracted from the payload. -/
theorem find_signatures_concrete_eq (net : Net) (c : ConcreteRelease) :
    find_signatures_for_version net (.Concrete c)
      = match find_signatures_loop net (lastSeg c.payload) attemptIndices with
        | (.ok _, probed) => (.ok (), probed)
        | (.error errs, probed) =>
          (.error (.signaturesExhausted c.version c.payload errs), probed) := by
  unfold find_signatures_for_version
  dsimp only [payload_from_release, Release.version]
  rw [extract_digest_eq_ok]

/-- The probe trace of a concrete release is the loop's trace. -/
theorem find_signatures_concrete_probes (net : Net) (c : ConcreteRelease) :
    (find_signatures_for_version net (.Concrete c)).2
      = (find_signatures_loop net (lastSeg c.payload) attemptIndices).2 := by
  rw [find_signatures_concrete_eq]
  cases h : find_signatures_loop net (lastSeg c.payload) attemptIndices with
  | mk res probed => cases res <;> simp

/-- A concrete release always has index 1 probed: its trace is nonempty. -/
theorem concrete_probes_ne_nil (net : Net) (c : ConcreteRelease) :
    (find_signatures_for_version net (.Concrete c)).2 ≠ [] := by
  rw [find_signatures_concrete_probes]
  exact find_signatures_loop_cons_probes_ne_nil net (lastSeg c.payload) 1 _

/-- A non-concrete release fails with NotConcreteRelease, nothing probed. -/
theorem non_concrete_no_probe (net : Net) (r : Release)
    (h : r.isConcrete = false) :
    find_signatures_for_version net r = (.error .notConcreteRelease, []) := by
  cases r with
  | Concrete c => simp [Release.isConcrete] at h
  | Abstract v => rfl

/-- When every release's stripped version parses, the filtering step
succeeds and keeps exactly the tracked releases, in order. -/
theorem filter_tracked_ok (parse : String → Option Version)
    (versions : List Version) (releases : List Release)
    (hp : ∀ r ∈ releases, (parse (strip_arch r.version)).isSome = true) :
    filter_tracked parse versions releases
      = .ok (releases.filter (trackedB parse versions)) := by
  induction releases with
  | nil => rfl
  | cons r rest ih =>
    have hr := hp r (List.mem_cons_self r rest)
    have hrest : ∀ x ∈ rest, (parse (strip_arch x.version)).isSome = true :=
      fun x hx => hp x (List.mem_cons_of_mem _ hx)
    unfold filter_tracked is_release_in_versions
    cases hv : parse (strip_arch r.version) with
    | none => rw [hv] at hr; simp at hr
    | some v =>
      rw [ih hrest]
      simp [List.filter_cons, trackedB, hv]

/-- The filtered list is a sublist of the input: original order kept. -/
theorem filter_tracked_sublist (parse : String → Option Version)
    (versions : List Version) :
    ∀ (releases tracked : List Release),
      filter_tracked parse versions releases = .ok tracked →
      tracked.Sublist releases := by
  intro releases
  induction releases with
  | nil =>
    intro tracked h
    unfold filter_tracked at h
    cases h
    exact List.Sublist.refl []
  | cons r rest ih =>
    intro tracked h
    unfold filter_tracked at h
    cases hv : is_release_in_versions parse versions r with
    | error e => rw [hv] at h; cases h
    | ok b =>
      rw [hv] at h
      cases hrec : filter_tracked parse versions rest with
      | error e => rw [hrec] at h; cases h
      | ok t =>
        rw [hrec] at h
        cases h
        cases b with
        | true => exact List.Sublist.cons₂ r (ih t hrec)
        | false => exact List.Sublist.cons r (ih t hrec)

/-- A single unparsable version anywhere in the list makes the filtering
step fail (the source panics on the unwrap). -/
theorem filter_tracked_error_of_bad (parse : String → Option Version)
    (versions : List Version) :
    ∀ (releases : List Release) (r : Release), r ∈ releases →
      parse (strip_arch r.version) = none →
      ∃ e, filter_tracked parse versions releases = .error e := by
  intro releases
  induction releases with
  | nil => intro r hr; cases hr
  | cons x rest ih =>
    intro r hr hbad
    cases hx : parse (strip_arch x.version) with
    | none =>
      refine ⟨"invalid semver: " ++ strip_arch x.version, ?_⟩
      unfold filter_tracked
      simp [is_release_in_versions, hx]
    | some v =>
      rcases List.mem_cons.mp hr with heq | hr'
      · subst heq; rw [hbad] at hx; cases hx
      · obtain ⟨e, he⟩ := ih r hr' hbad
        refine ⟨e, ?_⟩
        unfold filter_tracked
        simp [is_release_in_versions, hx, he]

/-- The filterMap step of run, pushed through the per-release map. -/
theorem run_filterMap_eq (net : Net) (tracked : List Release) :
    (tracked.map (fun r => (r, find_signatures_for_version net r))).filterMap
        (fun p => match p.2.1 with | .error e => some e | .ok _ => none)
      = tracked.filterMap (fun r => errOf (discoveryResult net r)) := by
  induction tracked with
  | nil => rfl
  | cons r rest ih =>
    simp only [List.map_cons, List.filterMap_cons]
    rw [ih]
    rfl

/-- The run's probe trace, given a successful filtering step: the filtered
releases in order, each with its own discovery trace. -/
theorem run_trace_of_filter_ok (net : Net) (parse : String → Option Version)
    (releases : List Release) (versions : List Version) (tracked : List Release)
    (hf : filter_tracked parse versions releases = .ok tracked) :
    (run net parse releases versions).2
      = tracked.map (fun r => (r, discoveryProbes net r)) := by
  unfold run
  rw [hf]
  dsimp only
  split <;> simp [discoveryProbes]

/-- The run's outcome, given a successful filtering step: success iff no
failing discovery result remains after the error-keeping filter. -/
theorem run_result_of_filter_ok (net : Net) (parse : String → Option Version)
    (releases : List Release) (versions : List Version) (tracked : List Release)
    (hf : filter_tracked parse versions releases = .ok tracked) :
    (run net parse releases versions).1
      = (if (tracked.filterMap (fun r => errOf (discoveryResult net r))).isEmpty
         then .ok ()
         else .error (.signatureCheckErrors
             (tracked.filterMap (fun r => errOf (discoveryResult net r))))) := by
  unfold run
  rw [hf]
  dsimp only
  rw [run_filterMap_eq]
  split <;> rfl

/-- The list the error-keeping filter produces is the in-order failing
results mapped to their errors. -/
theorem filterMap_errOf_eq (net : Net) (l : List Release) :
    l.filterMap (fun r => errOf (discoveryResult net r))
      = (l.filter (fun r => !resultIsOk (discoveryResult net r))).map
          (fun r => errUnwrap (discoveryResult net r)) := by
  induction l with
  | nil => rfl
  | cons r rest ih =>
    rw [List.filterMap_cons, List.filter_cons, ih]
    cases h : discoveryResult net r with
    | ok u => simp [h, errOf, resultIsOk]
    | error e => simp [h, errOf, errUnwrap, resultIsOk]

/-- C2: for a concrete release (digest extraction always succeeds), when
every candidate index fails, discovery probes exactly the indices 1 up to
MAX_SIGNATURES - 1 = 9 in increasing order and fails with an error naming
the release version, the payload, and the ordered list of exactly 9
accumulated per-index probe errors. -/
theorem c2_discovery_exhausts_all_nine (net : Net) (c : ConcreteRelease)
    (hf : ∀ i ∈ attemptIndices, probeOk net (lastSeg c.payload) i = false) :
    find_signatures_for_version net (.Concrete c)
      = (.error (.signaturesExhausted c.version c.payload
          (attemptIndices.map (probeErrMsg net (lastSeg c.payload)))), attemptIndices)
    ∧ attemptIndices = [1, 2, 3, 4, 5, 6, 7, 8, 9]
    ∧ (attemptIndices.map (probeErrMsg net (lastSeg c.payload))).length = 9 := by
  refine ⟨?_, rfl, by simp [attemptIndices, MAX_SIGNATURES]⟩
  rw [find_signatures_concrete_eq, find_signatures_loop_all_fail net _ _ hf]

/-- C2 witness: with a network answering 404 everywhere, discovery for the
4.1.0 release probes all nine indices and reports all nine errors. -/
theorem c2_witness :
    find_signatures_for_version netAllFail (.Concrete relA)
      = (.error (.signaturesExhausted relA.version relA.payload
          (attemptIndices.map (probeErrMsg netAllFail (lastSeg relA.payload)))),
         attemptIndices)
    ∧ attemptIndices = [1, 2, 3, 4, 5, 6, 7, 8, 9]
    ∧ (attemptIndices.map (probeErrMsg netAllFail (lastSeg relA.payload))).length = 9 :=
  c2_discovery_exhausts_all_nine netAllFail relA (by decide)

/-- C3: probing stops at the first successful candidate index: when k is
the first index that succeeds, discovery returns success having probed
exactly the increasing prefix 1, ..., k and no index beyond k; moreover
for every network and concrete release the probed indices form an
increasing prefix 1, ..., m of the candidate range. -/
theorem c3_stops_at_first_success (net : Net) (c : ConcreteRelease) (k : Nat)
    (hk1 : 1 ≤ k) (hk9 : k ≤ 9)
    (hsucc : probeOk net (lastSeg c.payload) k = true)
    (hbefore : ∀ j, j < k → 1 ≤ j → probeOk net (lastSeg c.payload) j = false) :
    (find_signatures_for_version net (.Concrete c)).1 = .ok ()
    ∧ (find_signatures_for_version net (.Concrete c)).2 = List.range' 1 k
    ∧ ∀ (net₂ : Net) (c₂ : ConcreteRelease), ∃ m, m ≤ 9 ∧
        (find_signatures_for_version net₂ (.Concrete c₂)).2 = List.range' 1 m := by
  have hsplit : attemptIndices
      = List.range' 1 (k - 1) ++ k :: List.range' (k + 1) (9 - k) := by
    have h2 := List.range'_append_1 1 (k - 1) (9 - k + 1)
    rw [show 1 + (k - 1) = k by omega] at h2
    rw [show 9 - k + 1 + (k - 1) = 9 by omega] at h2
    rw [List.range'_succ] at h2
    exact h2.symm
  have hfail : ∀ i ∈ List.range' 1 (k - 1), probeOk net (lastSeg c.payload) i = false := by
    intro i hi
    rw [List.mem_range'_1] at hi
    exact hbefore i (by omega) (by omega)
  have hloop := find_signatures_loop_first_success net (lastSeg c.payload)
    (List.range' 1 (k - 1)) (List.range' (k + 1) (9 - k)) k hfail hsucc
  have hprobes : List.range' 1 (k - 1) ++ [k] = List.range' 1 k := by
    have h3 := List.range'_append_1 1 (k - 1) 1
    rw [show 1 + (k - 1) = k by omega] at h3
    rw [show List.range' k 1 = [k] from rfl] at h3
    exact h3
  have hfind : find_signatures_for_version net (.Concrete c) = (.ok (), List.range' 1 k) := by
    rw [find_signatures_concrete_eq, hsplit, hloop, hprobes]
  refine ⟨by rw [hfind], by rw [hfind], ?_⟩
  intro net₂ c₂
  obtain ⟨m, hm, he⟩ :=
    find_signatures_loop_probes_take net₂ (lastSeg c₂.payload) attemptIndices
  have hm9 : m ≤ 9 := by simpa [attemptIndices, MAX_SIGNATURES] using hm
  refine ⟨m, hm9, ?_⟩
  rw [find_signatures_concrete_probes, he]
  exact take_range'_eq 1 m 9 hm9

/-- C3 witness: with only signature-3 existing for digest sha256:dead,
discovery succeeds having probed exactly indices 1, 2, 3. -/
theorem c3_witness :
    (find_signatures_for_version netOnlyThree (.Concrete relA)).1 = .ok ()
    ∧ (find_signatures_for_version netOnlyThree (.Concrete relA)).2 = List.range' 1 3 :=
  ⟨(c3_stops_at_first_success netOnlyThree relA 3 (by decide) (by decide)
      (by decide) (by decide)).1,
   (c3_stops_at_first_success netOnlyThree relA 3 (by decide) (by decide)
      (by decide) (by decide)).2.1⟩

/-- C6 counterexample: on the empty payload, digest extraction does not
fail with MalformedPayload as claimed: Rust's split of the empty string
still yields one (empty) segment, so extraction succeeds with the empty
digest. -/
theorem c6_counterexample :
    extract_digest "" = .ok ""
    ∧ extract_digest "" ≠ .error (.malformedPayload "") := by
  exact ⟨rfl, by decide⟩

/-- C6 amended: digest extraction never fails: for every payload, the
empty string included, it yields the last @-delimited segment (the whole
string when no @ is present, the empty string for the empty payload); the
MalformedPayload branch is unreachable. -/
theorem c6_extraction_total :
    (∀ payload, extract_digest payload = .ok (lastSeg payload))
    ∧ (∀ payload : String, '@' ∉ payload.data → lastSeg payload = payload)
    ∧ lastSeg "" = "" :=
  ⟨extract_digest_eq_ok, lastSeg_of_not_mem, rfl⟩

/-- C6 witness: a payload without @ is its own digest, and a well-formed
payload yields its digest segment. -/
theorem c6_witness :
    lastSeg "registryrepo" = "registryrepo"
    ∧ extract_digest "registry/repo@sha256:dead" = .ok (lastSeg "registry/repo@sha256:dead") :=
  ⟨c6_extraction_total.2.1 "registryrepo" (by decide),
   c6_extraction_total.1 "registry/repo@sha256:dead"⟩

/-- C8: the probe URL is the base signature-store URL joined with the
digest in which every colon is replaced by an equals sign, then the
segment signature-i; in particular the payload registry/repo@sha256:abcd
yields the digest sha256:abcd and the URL path segment sha256=abcd; and
the probe consults the network exactly at that URL. -/
theorem c8_url_construction :
    (∀ (sha : String) (i : Nat), fetch_url_target sha i
       = BASE_URL ++ replaceChar ':' '=' sha ++ "/" ++ "signature-" ++ toString i)
    ∧ extract_digest "registry/repo@sha256:abcd" = .ok "sha256:abcd"
    ∧ replaceChar ':' '=' "sha256:abcd" = "sha256=abcd"
    ∧ fetch_url_target "sha256:abcd" 3
       = "https://mirror.openshift.com/pub/openshift-v4/signatures/openshift/release/sha256=abcd/signature-3"
    ∧ (∀ (f g : Net) (sha : String) (i : Nat),
        f (fetch_url_target sha i) = g (fetch_url_target sha i) →
        fetch_url f sha i = fetch_url g sha i) := by
  refine ⟨?_, rfl, by decide, by decide, ?_⟩
  · intro sha i
    unfold fetch_url_target urlJoin
    rw [← String.append_assoc BASE_URL (replaceChar ':' '=' sha) "/"]
    rw [← String.append_assoc (BASE_URL ++ replaceChar ':' '=' sha ++ "/")
        "signature-" (toString i)]
  · intro f g sha i h
    unfold fetch_url
    rw [h]

/-- C8 witness: two networks agreeing at the probe URL give the probe the
same outcome. -/
theorem c8_witness :
    fetch_url netAllFail "sha256:dead" 1 = fetch_url (fun _ => .ok 404) "sha256:dead" 1 :=
  c8_url_construction.2.2.2.2 netAllFail (fun _ => .ok 404) "sha256:dead" 1 rfl

/-- C9: the version filter strips everything from the first plus sign
onward, parses the remainder, and returns exactly the membership test of
the parsed version against the tracked set; and 4.1.0+amd64 strips to
4.1.0. -/
theorem c9_filter_strips_and_tests (parse : String → Option Version)
    (versions : List Version) (r : Release) (v : Version)
    (hv : parse (strip_arch r.version) = some v) :
    is_release_in_versions parse versions r = .ok (versions.contains v)
    ∧ strip_arch "4.1.0+amd64" = "4.1.0" := by
  constructor
  · simp [is_release_in_versions, hv]
  · decide

/-- C9 witness: the filter on a release with version 4.1.0+amd64 strips
the arch suffix and answers the membership test for version 4.1.0. -/
theorem c9_witness :
    is_release_in_versions parse41 [⟨4, 1, 0⟩] (.Abstract "4.1.0+amd64")
      = .ok (([⟨4, 1, 0⟩] : List Version).contains ⟨4, 1, 0⟩)
    ∧ strip_arch "4.1.0+amd64" = "4.1.0" :=
  c9_filter_strips_and_tests parse41 [⟨4, 1, 0⟩] (.Abstract "4.1.0+amd64") ⟨4, 1, 0⟩
    (by decide)

/-- C10: when every release's version parses but none is in the tracked
set, the batch run succeeds and performs no signature probe at all (the
probe trace is empty). -/
theorem c10_no_tracked_success (net : Net) (parse : String → Option Version)
    (releases : List Release) (versions : List Version)
    (hp : ∀ r ∈ releases, (parse (strip_arch r.version)).isSome = true)
    (hnone : ∀ r ∈ releases, trackedB parse versions r = false) :
    run net parse releases versions = (.ok (), []) := by
  have hf := filter_tracked_ok parse versions releases hp
  have hnil : releases.filter (trackedB parse versions) = [] :=
    List.filter_eq_nil_iff.mpr (fun a ha => by simp [hnone a ha])
  rw [hnil] at hf
  unfold run
  rw [hf]
  rfl

/-- C10 witness: a run whose tracked-version set is empty succeeds with an
empty probe trace. -/
theorem c10_witness :
    run netAllFail parse41 [.Concrete relA] [] = (.ok (), []) :=
  c10_no_tracked_success netAllFail parse41 [.Concrete relA] [] (by decide) (by decide)

/-- C7: a single release whose stripped version fails to parse aborts the
entire batch with the version-parse failure, before any probe happens (the
probe trace is empty); the release is not skipped or treated as
untracked. -/
theorem c7_parse_failure_aborts (net : Net) (parse : String → Option Version)
    (releases : List Release) (versions : List Version) (r : Release)
    (hr : r ∈ releases) (hbad : parse (strip_arch r.version) = none) :
    isVersionParseFailure (run net parse releases versions).1 = true
    ∧ (run net parse releases versions).2 = [] := by
  obtain ⟨e, he⟩ := filter_tracked_error_of_bad parse versions releases r hr hbad
  unfold run
  rw [he]
  exact ⟨rfl, rfl⟩

/-- C7 witness: a run with one unparsable release version aborts with the
version-parse failure and an empty probe trace. -/
theorem c7_witness :
    isVersionParseFailure
        (run netAllFail (fun _ => none) [.Abstract "not-a-version"] []).1 = true
    ∧ (run netAllFail (fun _ => none) [.Abstract "not-a-version"] []).2 = [] :=
  c7_parse_failure_aborts netAllFail (fun _ => none) [.Abstract "not-a-version"] []
    (.Abstract "not-a-version") (by decide) rfl

/-- C4: with the filtering step succeeded, the batch returns success iff
every filtered release's discovery succeeded; otherwise it fails carrying
exactly the in-order errors of the failing discoveries: every failing
release contributes (also one listed after an earlier failure) and no
successful release appears. -/
theorem c4_batch_failure_aggregation (net : Net) (parse : String → Option Version)
    (releases : List Release) (versions : List Version) (tracked : List Release)
    (hf : filter_tracked parse versions releases = .ok tracked) :
    ((run net parse releases versions).1 = .ok ()
       ↔ ∀ r ∈ tracked, discoveryResult net r = .ok ())
    ∧ ((run net parse releases versions).1 ≠ .ok () →
        (run net parse releases versions).1
          = .error (.signatureCheckErrors
              (tracked.filterMap (fun r => errOf (discoveryResult net r))))) := by
  have hres := run_result_of_filter_ok net parse releases versions tracked hf
  constructor
  · rw [hres]
    constructor
    · intro hok r hrt
      by_cases hemp : (tracked.filterMap (fun r => errOf (discoveryResult net r))).isEmpty
      · have hnone : errOf (discoveryResult net r) = none :=
          List.filterMap_eq_nil_iff.mp (List.isEmpty_iff.mp hemp) r hrt
        cases hd : discoveryResult net r with
        | ok u => cases u; rfl
        | error e => rw [hd] at hnone; cases hnone
      · rw [if_neg hemp] at hok; cases hok
    · intro hall
      have hnil : tracked.filterMap (fun r => errOf (discoveryResult net r)) = [] := by
        apply List.filterMap_eq_nil_iff.mpr
        intro a ha
        rw [hall a ha]
        rfl
      rw [hnil]
      rfl
  · intro hne
    rw [hres] at hne ⊢
    by_cases hemp : (tracked.filterMap (fun r => errOf (discoveryResult net r))).isEmpty
    · rw [if_pos hemp] at hne; exact absurd rfl hne
    · rw [if_neg hemp]

/-- C4 witness: with every probe failing, a batch of two tracked releases
(a concrete one and an abstract one) fails carrying both in-order
discovery errors. -/
theorem c4_witness :
    (run netAllFail parse41 rlAB [⟨4, 1, 0⟩]).1
      = .error (.signatureCheckErrors
          (rlAB.filterMap (fun r => errOf (discoveryResult netAllFail r)))) :=
  (c4_batch_failure_aggregation netAllFail parse41 rlAB [⟨4, 1, 0⟩] rlAB rfl).2
    (by decide)

/-- C5: the batch's collected results and failure report keep the input
order: the filtered list is a sublist of the input (original relative
order kept), the probe-trace entries follow the filtered list in order,
and a reported failure list is exactly the in-order failing discoveries. -/
theorem c5_order_preserved (net : Net) (parse : String → Option Version)
    (releases : List Release) (versions : List Version) (tracked : List Release)
    (hf : filter_tracked parse versions releases = .ok tracked) :
    tracked.Sublist releases
    ∧ (run net parse releases versions).2
        = tracked.map (fun r => (r, discoveryProbes net r))
    ∧ (∀ failures,
        (run net parse releases versions).1
            = .error (.signatureCheckErrors failures) →
        failures = (tracked.filter (fun r => !resultIsOk (discoveryResult net r))).map
            (fun r => errUnwrap (discoveryResult net r))) := by
  refine ⟨filter_tracked_sublist parse versions releases tracked hf,
    run_trace_of_filter_ok net parse releases versions tracked hf, ?_⟩
  intro failures hfail
  rw [run_result_of_filter_ok net parse releases versions tracked hf] at hfail
  by_cases hemp : (tracked.filterMap (fun r => errOf (discoveryResult net r))).isEmpty
  · rw [if_pos hemp] at hfail; cases hfail
  · rw [if_neg hemp] at hfail
    injection hfail with h1
    injection h1 with h2
    rw [← h2]
    exact filterMap_errOf_eq net tracked

/-- C5 witness: a release outside the tracked set is dropped while the
two tracked releases keep their input order in the probe trace. -/
theorem c5_witness :
    trkAC.Sublist rlABC
    ∧ (run netAllFail parseTot rlABC [⟨4, 1, 0⟩]).2
        = trkAC.map (fun r => (r, discoveryProbes netAllFail r)) :=
  ⟨(c5_order_preserved netAllFail parseTot rlABC [⟨4, 1, 0⟩] trkAC rfl).1,
   (c5_order_preserved netAllFail parseTot rlABC [⟨4, 1, 0⟩] trkAC rfl).2.1⟩

/-- C1: a release in the batch has at least one signature probe performed
iff it is the concrete variant and its stripped version parses into the
tracked set; and a non-concrete release fails with NotConcreteRelease
before any probe. -/
theorem c1_probe_iff_concrete_tracked (net : Net) (parse : String → Option Version)
    (releases : List Release) (versions : List Version)
    (hp : ∀ r ∈ releases, (parse (strip_arch r.version)).isSome = true) :
    (∀ r ∈ releases,
      probesOf (run net parse releases versions).2 r ≠ [] ↔
        (r.isConcrete = true ∧ trackedB parse versions r = true))
    ∧ (∀ r : Release, r.isConcrete = false →
        find_signatures_for_version net r = (.error .notConcreteRelease, [])) := by
  have hf := filter_tracked_ok parse versions releases hp
  have htr := run_trace_of_filter_ok net parse releases versions _ hf
  refine ⟨?_, non_concrete_no_probe net⟩
  intro r hr
  constructor
  · intro hne
    cases hfind : (run net parse releases versions).2.find? (fun p => decide (p.1 = r)) with
    | none =>
      unfold probesOf at hne
      rw [hfind] at hne
      exact absurd rfl hne
    | some p =>
      have hps := List.find?_some hfind
      have hp1 : p.1 = r := by simpa using hps
      have hpmem : p ∈ (run net parse releases versions).2 :=
        List.mem_of_find?_eq_some hfind
      rw [htr] at hpmem
      obtain ⟨r', hr', heq⟩ := List.mem_map.mp hpmem
      have hr'r : r' = r := by rw [← heq] at hp1; exact hp1
      subst hr'r
      unfold probesOf at hne
      rw [hfind] at hne
      have hne' : p.2 ≠ [] := hne
      have hp2 : p.2 = discoveryProbes net r' := by rw [← heq]
      rw [hp2] at hne'
      refine ⟨?_, (List.mem_filter.mp hr').2⟩
      cases hc : r'.isConcrete with
      | true => rfl
      | false =>
        have hnc := non_concrete_no_probe net r' hc
        rw [discoveryProbes, hnc] at hne'
        exact absurd rfl hne'
  · rintro ⟨hconc, htrk⟩
    have hmemf : r ∈ releases.filter (trackedB parse versions) :=
      List.mem_filter.mpr ⟨hr, htrk⟩
    have hentry : (r, discoveryProbes net r) ∈ (run net parse releases versions).2 := by
      rw [htr]
      exact List.mem_map.mpr ⟨r, hmemf, rfl⟩
    cases hfind : (run net parse releases versions).2.find? (fun p => decide (p.1 = r)) with
    | none =>
      have := List.find?_eq_none.mp hfind _ hentry
      simp at this
    | some p =>
      have hps := List.find?_some hfind
      have hp1 : p.1 = r := by simpa using hps
      have hpmem := List.mem_of_find?_eq_some hfind
      rw [htr] at hpmem
      obtain ⟨r', hr', heq⟩ := List.mem_map.mp hpmem
      have hr'r : r' = r := by rw [← heq] at hp1; exact hp1
      subst hr'r
      unfold probesOf
      rw [hfind]
      show p.2 ≠ []
      have hp2 : p.2 = discoveryProbes net r' := by rw [← heq]
      rw [hp2]
      cases hrel : r' with
      | Concrete c => exact concrete_probes_ne_nil net c
      | Abstract v => rw [hrel] at hconc; simp [Release.isConcrete] at hconc

/-- C1 witness: the tracked concrete 4.1.0 release is probed in the run,
and an abstract release fails with NotConcreteRelease unprobed. -/
theorem c1_witness :
    probesOf (run netAllFail parse41 [Release.Concrete relA] [⟨4, 1, 0⟩]).2
        (Release.Concrete relA) ≠ []
    ∧ find_signatures_for_version netAllFail (Release.Abstract "4.1.0")
        = (.error .notConcreteRelease, []) :=
  ⟨((c1_probe_iff_concrete_tracked netAllFail parse41 [Release.Concrete relA]
      [⟨4, 1, 0⟩] (by decide)).1 (Release.Concrete relA) (by decide)).mpr (by decide),
   (c1_probe_iff_concrete_tracked netAllFail parse41 [Release.Concrete relA]
      [⟨4, 1, 0⟩] (by decide)).2 (Release.Abstract "4.1.0") (by decide)⟩

end CheckSignatures
